import Mathlib

/-!
Verification of the doisporum.net offer scraper (files scraper.py and the
modular variant under src/): a shallow embedding in Lean of the frontier
link collector, the coordinator ordering, the heuristic detail-field
extraction rules, the retrying fetcher, and the list-page link extractor,
together with theorems settling the specified properties.

Modelling conventions:
 - Python strings are Lean String values; character-level work is done on
   String.toList. Python len(s) is String.length.
 - The regular expressions of the source (config.py constants) are modelled
   by hand-written matchers over List Char that follow the patterns
   literally. The Python re module treats word characters and case folding
   over full Unicode; the model uses the ASCII classes (Char.isAlphanum,
   Char.isDigit, Char.toLower), which agree on all characters the patterns
   themselves mention.
 - Python set objects iterate in an unspecified, hash-dependent order.
   list(set(xs)) is modelled by setList (first-occurrence deduplication);
   where a claim depends on the unspecified order, the definitions take an
   explicit enumeration argument constrained only by ValidEnum.
 - Python list.sort(key=...) is a stable sort; it is modelled by
   List.insertionSort with a total transitive relation, which is stable.
-/

/-! ## Character and string primitives -/

/-- Word character of the regex class backslash-w, ASCII fragment:
letters, digits and underscore. -/
def isWordChar (c : Char) : Bool := c.isAlphanum || c == '_'

/-- Match a case-sensitive literal at the head of the input; on success
return the rest of the input. -/
def matchLit : List Char → List Char → Option (List Char)
  | [], s => some s
  | _ :: _, [] => none
  | p :: ps, c :: cs => if c == p then matchLit ps cs else none

/-- Match a case-insensitive literal (given in lowercase) at the head of
the input; on success return the rest of the input. -/
def matchLitCI : List Char → List Char → Option (List Char)
  | [], s => some s
  | _ :: _, [] => none
  | p :: ps, c :: cs => if c.toLower == p then matchLitCI ps cs else none

/-- Does some suffix position of the input satisfy the predicate?  This is
the scan performed by re.search: try every start position left to right. -/
def anyTail (p : List Char → Bool) : List Char → Bool
  | [] => p []
  | c :: cs => p (c :: cs) || anyTail p cs

/-- Case-sensitive substring test, the semantics of the Python expression
needle in hay. -/
def containsSub (needle hay : String) : Bool :=
  anyTail (fun t => (matchLit needle.toList t).isSome) hay.toList

/-- Case-insensitive substring test: the boolean value of re.search for a
literal alternative under re.IGNORECASE. -/
def containsCI (needle hay : String) : Bool :=
  anyTail (fun t => (matchLitCI (needle.toList.map Char.toLower) t).isSome)
    (hay.toList.map Char.toLower)

/-- Model of re.sub applied with pattern backslash-s+ and replacement " "
(scraper.py line 225): every maximal whitespace run collapses to a single
space.  The boolean argument records whether the previous character was
part of a whitespace run. -/
def collapseWs : Bool → List Char → List Char
  | _, [] => []
  | prevWs, c :: cs =>
    if c.isWhitespace then
      if prevWs then collapseWs true cs else ' ' :: collapseWs true cs
    else c :: collapseWs false cs

/-- Whitespace normalization of a text block (scraper.py line 225). -/
def normalizeWs (s : String) : String := String.mk (collapseWs false s.toList)

/-! ## The offer patterns (config.py)

OFFER_KEYWORDS is the regex with alternatives: caret oferta word-boundary,
2 ws* por ws* 1, dois ws* por ws* um, 2x1, searched case-insensitively. -/

/-- Does the block match re.match of the pattern caret oferta
word-boundary under re.IGNORECASE (scraper.py line 261)?  The literal
oferta must start the string and be followed by a non-word character or
the end of the string. -/
def startsOferta (s : String) : Bool :=
  match matchLitCI ['o', 'f', 'e', 'r', 't', 'a'] s.toList with
  | none => false
  | some rest =>
    match rest with
    | [] => true
    | c :: _ => !isWordChar c

/-- Match the alternative 2 ws* por ws* 1 at the current position. -/
def match2por1At (s : List Char) : Bool :=
  match s with
  | '2' :: rest =>
    match matchLitCI ['p', 'o', 'r'] (rest.dropWhile Char.isWhitespace) with
    | some r2 =>
      match r2.dropWhile Char.isWhitespace with
      | '1' :: _ => true
      | _ => false
    | none => false
  | _ => false

/-- Match the alternative dois ws* por ws* um at the current position. -/
def matchDoisAt (s : List Char) : Bool :=
  match matchLitCI ['d', 'o', 'i', 's'] s with
  | some r1 =>
    match matchLitCI ['p', 'o', 'r'] (r1.dropWhile Char.isWhitespace) with
    | some r2 =>
      (matchLitCI ['u', 'm'] (r2.dropWhile Char.isWhitespace)).isSome
    | none => false
  | none => false

/-- Match the alternative 2x1 at the current position (case-insensitive,
so 2X1 also matches). -/
def match2x1At (s : List Char) : Bool :=
  (matchLitCI ['2', 'x', '1'] s).isSome

/-- Boolean value of re.search(OFFER_KEYWORDS, block, re.IGNORECASE)
(scraper.py line 270): the anchored alternative only fires at the start,
the other three at any position. -/
def offerKeywordsB (s : String) : Bool :=
  startsOferta s
    || anyTail match2por1At s.toList
    || anyTail matchDoisAt s.toList
    || anyTail match2x1At s.toList

/-! ## Python min and max with a length key -/

/-- Python min(xs, key=len): the first element of minimal length, computed
by a left fold that replaces the accumulator only on strictly smaller
length. -/
def pyMinByLen (x : String) (xs : List String) : String :=
  xs.foldl (fun acc y => if y.length < acc.length then y else acc) x

/-- Python max(xs, key=len): the first element of maximal length. -/
def pyMaxByLen (x : String) (xs : List String) : String :=
  xs.foldl (fun acc y => if acc.length < y.length then y else acc) x

/-! ## Offer and description extraction
(DoisPorUmDetailParser, scraper.py lines 255-305) -/

/-- Translation of DoisPorUmDetailParser._extract_offer (scraper.py lines
255-276): first collect the blocks matching the anchored oferta pattern
and return the shortest; otherwise collect the blocks matching
OFFER_KEYWORDS and return the shortest; otherwise the empty string. -/
def extract_offer (blocks : List String) : String :=
  match blocks.filter (fun b => startsOferta b) with
  | c :: cs => pyMinByLen c cs
  | [] =>
    match blocks.filter (fun b => offerKeywordsB b) with
    | c :: cs => pyMinByLen c cs
    | [] => ""

/-- Translation of DoisPorUmDetailParser._extract_description (scraper.py
lines 278-305): the longest block of length above 120 matching neither
offer predicate; else the longest block matching neither predicate; else
the empty string. -/
def extract_description (blocks : List String) : String :=
  match blocks.filter
      (fun b => decide (120 < b.length) && !startsOferta b && !offerKeywordsB b) with
  | c :: cs => pyMaxByLen c cs
  | [] =>
    match blocks.filter (fun b => !startsOferta b && !offerKeywordsB b) with
    | c :: cs => pyMaxByLen c cs
    | [] => ""

/-! ## Deduplication keeping first occurrences

Python set objects deduplicate; list(set(xs)) enumerates in an unspecified
order, modelled here as first-occurrence order. -/

/-- Deduplicate by a key, keeping the first element of each key class;
seen is the list of keys already emitted. -/
def dedupKeyedAux (key : String → String) (seen : List String) :
    List String → List String
  | [] => []
  | a :: rest =>
    if key a ∈ seen then dedupKeyedAux key seen rest
    else a :: dedupKeyedAux key (key a :: seen) rest

/-- Deduplicate by a key, keeping first occurrences. -/
def dedupKeyed (key : String → String) (l : List String) : List String :=
  dedupKeyedAux key [] l

/-- Model of list(set(xs)) up to enumeration order: first-occurrence
deduplication. -/
def setList (l : List String) : List String := dedupKeyed id l

/-! ## Postal code and street indicator patterns (config.py) -/

/-- Match of CEP_PATTERN, word-boundary five-digits dash three-digits
word-boundary, at one position; prev is the character before the
position (none at the start of the string). -/
def cepAt (prev : Option Char) (s : List Char) : Bool :=
  (match prev with | none => true | some c => !isWordChar c) &&
  (match s with
   | d1 :: d2 :: d3 :: d4 :: d5 :: '-' :: m1 :: m2 :: m3 :: rest =>
     d1.isDigit && d2.isDigit && d3.isDigit && d4.isDigit && d5.isDigit &&
     m1.isDigit && m2.isDigit && m3.isDigit &&
     (match rest with | [] => true | c9 :: _ => !isWordChar c9)
   | _ => false)

/-- Scan for CEP_PATTERN at every position, tracking the previous
character for the leading word boundary. -/
def cepSearchAux (prev : Option Char) : List Char → Bool
  | [] => false
  | c :: cs => cepAt prev (c :: cs) || cepSearchAux (some c) cs

/-- Boolean value of re.search(CEP_PATTERN, block) (scraper.py line 313). -/
def cepSearch (s : String) : Bool := cepSearchAux none s.toList

/-- Boolean value of re.search(ADDRESS_INDICATORS, block, re.IGNORECASE)
(scraper.py line 340).  The alternatives Av and Al carry an optional dot,
so the bare two-letter substring suffices for them, while R and Rod
require their dot. -/
def addressIndicator (s : String) : Bool :=
  containsCI "rua" s || containsCI "av" s || containsCI "r." s
    || containsCI "al" s || containsCI "largo" s || containsCI "praça" s
    || containsCI "praca" s || containsCI "rod." s

/-- Model of re.sub removing the anchored pattern caret [A-Z ws]+ colon
(scraper.py line 326): since neither uppercase letters nor whitespace are
a colon, the match, when it exists, is the maximal run of uppercase or
whitespace characters followed by the colon right after it. -/
def stripLabel (s : String) : String :=
  let l := s.toList
  let run := l.takeWhile (fun c => (decide ('A' ≤ c) && decide (c ≤ 'Z')) || c.isWhitespace)
  match l.drop run.length with
  | ':' :: tail => if run.length == 0 then s else String.mk tail
  | _ => s

/-! ## Length-ordered stable sort

Python list.sort(key=len) is stable; List.insertionSort with the total
transitive relation lenLe is the stable sort by length. -/

/-- Comparison of strings by length, the sort key len. -/
def lenLe (a b : String) : Prop := a.length ≤ b.length

instance : DecidableRel lenLe := fun a b => Nat.decLe a.length b.length

instance : IsTotal String lenLe := ⟨fun a b => Nat.le_total a.length b.length⟩

instance : IsTrans String lenLe := ⟨fun _ _ _ h1 h2 => Nat.le_trans h1 h2⟩

/-! ## Address extraction -/

/-- Translation of DoisPorUmDetailParser._extract_address (scraper.py
lines 307-349): blocks with a postal code and length under 150; if more
than one, deduplicate by stripped label, sort ascending by length
(stable) and join the first five with " | "; if exactly one, return it;
otherwise the same treatment, with plain deduplication and three entries,
for blocks with a street indicator and length under 150; otherwise the
empty string. -/
def extract_address (blocks : List String) : String :=
  let cep_blocks := blocks.filter (fun b => cepSearch b && decide (b.length < 150))
  if 1 < cep_blocks.length then
    let unique_addresses := dedupKeyed stripLabel cep_blocks
    String.intercalate " | " ((List.insertionSort lenLe unique_addresses).take 5)
  else if cep_blocks.length == 1 then cep_blocks.headI
  else
    let address_blocks :=
      blocks.filter (fun b => addressIndicator b && decide (b.length < 150))
    if address_blocks.isEmpty then ""
    else
      String.intercalate " | "
        ((List.insertionSort lenLe (setList address_blocks)).take 3)

/-- The address policy exactly as claim C4 words it: Tier 1 takes the
blocks shorter than 150 characters containing the postal-code pattern;
exactly one such block is returned verbatim; more than one are
deduplicated by comparison after stripping a leading all-caps label
prefix, sorted by ascending length, and at most 5 joined with " | ".
Only when Tier 1 yields nothing, Tier 2 takes the blocks shorter than 150
characters containing a street indicator, deduplicates, sorts by
ascending length and joins at most 3.  If neither tier matches, the
empty string. -/
def address_spec (blocks : List String) : String :=
  let tier1 := blocks.filter (fun b => decide (b.length < 150) && cepSearch b)
  match tier1 with
  | [] =>
    let tier2 := blocks.filter (fun b => decide (b.length < 150) && addressIndicator b)
    match tier2 with
    | [] => ""
    | _ :: _ =>
      String.intercalate " | " ((List.insertionSort lenLe (setList tier2)).take 3)
  | [b] => b
  | _ :: _ :: _ =>
    String.intercalate " | "
      ((List.insertionSort lenLe (dedupKeyed stripLabel tier1)).take 5)

/-! ## Phone extraction -/

/-- Match of PHONE_PATTERN at one position: optional opening parenthesis,
two digits, optional closing parenthesis, optional single whitespace,
four or five digits, a dash, four digits.  Returns the three capture
groups and the input remaining after the match.  The optional elements
are deterministic here: when skipping one would help, the following
digit class fails anyway, so no backtracking case is lost. -/
def phoneMatchAt (s : List Char) : Option ((String × String × String) × List Char) :=
  let s1 := match s with | '(' :: r => r | _ => s
  match s1 with
  | a :: b :: r2 =>
    if a.isDigit && b.isDigit then
      let s2 := match r2 with | ')' :: r => r | _ => r2
      let s3 := match s2 with
                | c :: r => if c.isWhitespace then r else s2
                | [] => s2
      let ds := s3.takeWhile Char.isDigit
      if ds.length == 4 || ds.length == 5 then
        match s3.drop ds.length with
        | '-' :: rest2 =>
          if 4 ≤ (rest2.takeWhile Char.isDigit).length then
            some ((String.mk [a, b], String.mk ds, String.mk (rest2.take 4)),
              rest2.drop 4)
          else none
        | _ => none
      else none
    else none
  | _ => none

/-- Left-to-right non-overlapping scan of re.findall(PHONE_PATTERN, s):
on a match continue after it, otherwise advance one position.  The fuel
bounds the recursion; both continuations strictly shorten the input, so
length-many steps suffice. -/
def phoneFindAllAux (fuel : Nat) (s : List Char) :
    List (String × String × String) :=
  match fuel, s with
  | 0, _ => []
  | _, [] => []
  | fuel + 1, c :: cs =>
    match phoneMatchAt (c :: cs) with
    | some (m, rest) => m :: phoneFindAllAux fuel rest
    | none => phoneFindAllAux fuel cs

/-- Model of re.findall(PHONE_PATTERN, s) returning the group tuples. -/
def phoneFindAll (s : String) : List (String × String × String) :=
  phoneFindAllAux s.toList.length s.toList

/-- Formatting of one phone match (scraper.py line 367). -/
def formatPhone (t : String × String × String) : String :=
  "(" ++ t.1 ++ ") " ++ t.2.1 ++ "-" ++ t.2.2

/-- Lexicographic comparison of character lists by code point, the order
Python sorted uses on strings. -/
def lexLeB : List Char → List Char → Bool
  | [], _ => true
  | _ :: _, [] => false
  | a :: as, b :: bs =>
    if a < b then true
    else if b < a then false
    else lexLeB as bs

/-- Lexicographic order on strings, the order of Python sorted. -/
def strLe (s t : String) : Prop := lexLeB s.toList t.toList = true

instance : DecidableRel strLe := fun _ _ => instDecidableEqBool _ _

/-- All phone-shaped matches of a list of blocks, formatted, in block
order; the Python code accumulates them into a set. -/
def phoneFmtList (l : List String) : List String :=
  (l.map (fun b => (phoneFindAll b).map formatPhone)).flatten

/-- Translation of DoisPorUmDetailParser._extract_phone (scraper.py lines
351-383): collect formatted phone matches from the address-bearing blocks
into a set; if nonempty, join its sorted enumeration with " | ";
otherwise do the same with the matches of the whole raw page; otherwise
the empty string. -/
def extract_phone (blocks : List String) (html : String) : String :=
  let address_blocks := blocks.filter (fun b => cepSearch b || addressIndicator b)
  let c1 := setList (phoneFmtList address_blocks)
  if c1.isEmpty then
    let c2 := setList ((phoneFindAll html).map formatPhone)
    if c2.isEmpty then ""
    else String.intercalate " | " (List.insertionSort strLe c2)
  else String.intercalate " | " (List.insertionSort strLe c1)

/-! ## The offer record (scraper.py lines 42-58) -/

/-- Domain entity OfferItem: the dataclass with its defaults; the
post-init images-or-empty-list step is the default here. -/
structure OfferItem where
  id : Option String := none
  url : String := ""
  title : String := ""
  offer : String := ""
  description : String := ""
  address : String := ""
  phone : String := ""
  website : String := ""
  images : List String := []
deriving DecidableEq, Repr

/-! ## The coordinator sort key (scraper.py lines 567-574) -/

/-- Strip leading and trailing whitespace, as Python int() does before
parsing. -/
def trimWs (l : List Char) : List Char :=
  ((l.dropWhile Char.isWhitespace).reverse.dropWhile Char.isWhitespace).reverse

/-- Decimal value of a digit list. -/
def digitsToNat (l : List Char) : Nat :=
  l.foldl (fun n c => 10 * n + (c.toNat - 48)) 0

/-- Model of Python int(s) on ordinary decimal inputs: optional
whitespace, optional sign, nonempty ASCII digit run; none when int would
raise ValueError.  (Underscore digit separators and non-ASCII digits,
which Python also accepts, cannot arise from this program's ids.) -/
def pyInt (s : String) : Option Int :=
  match trimWs s.toList with
  | '-' :: ds =>
    if ds.isEmpty then none
    else if ds.all Char.isDigit then some (-(digitsToNat ds : Int)) else none
  | '+' :: ds =>
    if ds.isEmpty then none
    else if ds.all Char.isDigit then some (digitsToNat ds : Int) else none
  | ds =>
    if ds.isEmpty then none
    else if ds.all Char.isDigit then some (digitsToNat ds : Int) else none

/-- The sort key of ScrapeCoordinator.run (scraper.py lines 568-572):
int(offer.id) when the id is present, nonempty and parses, else positive
infinity, modelled as none. -/
def sort_key (o : OfferItem) : Option Int :=
  match o.id with
  | none => none
  | some s => if s = "" then none else pyInt s

/-- Order on sort keys: every integer is below infinity. -/
def keyLe : Option Int → Option Int → Bool
  | _, none => true
  | none, some _ => false
  | some a, some b => decide (a ≤ b)

/-- Record comparison by mapped sort key. -/
def offerLe (a b : OfferItem) : Prop := keyLe (sort_key a) (sort_key b) = true

instance : DecidableRel offerLe := fun _ _ => instDecidableEqBool _ _

theorem keyLe_total (x y : Option Int) : keyLe x y = true ∨ keyLe y x = true := by
  cases x <;> cases y <;> simp [keyLe] <;> omega

theorem keyLe_trans {x y z : Option Int} (h1 : keyLe x y = true)
    (h2 : keyLe y z = true) : keyLe x z = true := by
  cases x <;> cases y <;> cases z <;> simp_all [keyLe] <;> omega

instance : IsTotal OfferItem offerLe :=
  ⟨fun a b => keyLe_total (sort_key a) (sort_key b)⟩

instance : IsTrans OfferItem offerLe :=
  ⟨fun _ _ _ h1 h2 => keyLe_trans h1 h2⟩

/-- The final ordering the coordinator imposes: the stable sort of the
records by sort_key (scraper.py line 574). -/
def coordinatorSort (l : List OfferItem) : List OfferItem :=
  List.insertionSort offerLe l

/-! ## The coordinator run (ScrapeCoordinator.run, scraper.py 549-583) -/

/-- Observable outcome of one coordinator run: the argument passed to
each repository save operation, or none when that operation was never
invoked. -/
structure RunOutcome where
  save_csv_arg : Option (List OfferItem)
  save_jsonl_arg : Option (List OfferItem)
deriving DecidableEq, Repr

/-- Translation of ScrapeCoordinator.run with the collaborators
abstracted: collect_result is what LinkCollector.collect_links returned,
scrape is DetailScraper.scrape_details.  Empty URL list or empty record
list return early without touching the repository; otherwise the sorted
records go to both save operations. -/
def coordinatorRun (collect_result : List String)
    (scrape : List String → List OfferItem) : RunOutcome :=
  if collect_result.isEmpty then ⟨none, none⟩
  else
    let offers := scrape collect_result
    if offers.isEmpty then ⟨none, none⟩
    else
      let sorted := coordinatorSort offers
      ⟨some sorted, some sorted⟩

/-! ## The frontier collector (LinkCollector.collect_links,
scraper.py lines 460-499) -/

/-- Frontier state: the three containers of collect_links plus an
instrumentation field recording every URL handed to the HTTP client, in
order. -/
structure FrontierState where
  collected_links : Finset String
  visited_pages : Finset String
  pages_to_visit : List String
  fetched : List String

/-- The inner for-loop over extracted detail links: before each addition
the cap is checked and the loop breaks once the cap is reached. -/
def addLinksUpTo (max_items : Nat) : Finset String → List String → Finset String
  | c, [] => c
  | c, link :: rest =>
    if max_items ≤ c.card then c
    else addLinksUpTo max_items (insert link c) rest

/-- One iteration of the while-loop of collect_links: pop the queue
front; skip if visited; mark visited; fetch (a falsy result, none or the
empty page, skips); add detail links up to the cap; while still under the
cap, enqueue unvisited pagination links at the back. -/
def collectStep (world : String → Option String)
    (extractDetails extractPagination : String → List String)
    (max_items : Nat) (s : FrontierState) : FrontierState :=
  match s.pages_to_visit with
  | [] => s
  | current_url :: rest =>
    if current_url ∈ s.visited_pages then
      { s with pages_to_visit := rest }
    else
      let visited := insert current_url s.visited_pages
      let fetched := s.fetched ++ [current_url]
      match world current_url with
      | none =>
        { collected_links := s.collected_links, visited_pages := visited,
          pages_to_visit := rest, fetched := fetched }
      | some html =>
        if html.length == 0 then
          { collected_links := s.collected_links, visited_pages := visited,
            pages_to_visit := rest, fetched := fetched }
        else
          let collected := addLinksUpTo max_items s.collected_links (extractDetails html)
          let queue :=
            if collected.card < max_items then
              rest ++ (extractPagination html).filter
                (fun link => !(decide (link ∈ visited)))
            else rest
          { collected_links := collected, visited_pages := visited,
            pages_to_visit := queue, fetched := fetched }

/-- The while-loop of collect_links, driven by fuel: while the queue is
nonempty and the collected set is below the cap, take a step. -/
def collectRun (world : String → Option String)
    (extractDetails extractPagination : String → List String)
    (max_items : Nat) : Nat → FrontierState → FrontierState
  | 0, s => s
  | fuel + 1, s =>
    if ¬s.pages_to_visit.isEmpty ∧ s.collected_links.card < max_items then
      collectRun world extractDetails extractPagination max_items fuel
        (collectStep world extractDetails extractPagination max_items s)
    else s

/-- Initial frontier state of collect_links. -/
def initFrontier (seed_url : String) : FrontierState :=
  { collected_links := ∅, visited_pages := ∅,
    pages_to_visit := [seed_url], fetched := [] }

/-! ## The fetcher retry loop (AsyncHttpxClient.get_text,
scraper.py lines 120-141) -/

/-- The for-loop of get_text over the pending attempt indices.  The
abstract attempt function returns some html when that attempt succeeds
(2xx response) and none when it raises (transport error or
raise_for_status).  Returns the result, the list of back-off sleep
durations performed (1 + attempt, only when attempt < 2), and the list
of attempt indices actually tried. -/
def getTextFrom (f : Nat → Option String) :
    List Nat → Option String × List Nat × List Nat
  | [] => (none, [], [])
  | attempt :: rest =>
    match f attempt with
    | some text => (some text, [], [attempt])
    | none =>
      let waits := if attempt < 2 then [1 + attempt] else []
      let r := getTextFrom f rest
      (r.1, waits ++ r.2.1, attempt :: r.2.2)

/-- Translation of get_text: range(3) attempts, returning none (never an
exception: the loop catches every exception) after the last failure. -/
def get_text (f : Nat → Option String) : Option String × List Nat × List Nat :=
  getTextFrom f (List.range 3)

/-! ## The list-page link extractor (DoisPorUmListPageParser,
scraper.py lines 152-166) -/

/-- Base URL constant (config.py). -/
def BASE_URL : String := "https://doisporum.net"

/-- Boolean prefix test over characters. -/
def startsWithStr (p s : String) : Bool := (matchLit p.toList s.toList).isSome

/-- Match of DETAIL_HREF_PATTERN under re.match: the literal
/home/details/ prefix, at least one digit, an optional slash, then the
dollar anchor.  Python's dollar matches at the end of the string and
also just before one final newline, so the suffixes after the digit run
that match are exactly empty, slash, newline, and slash newline. -/
def detailHrefMatch (s : String) : Bool :=
  match matchLit "/home/details/".toList s.toList with
  | none => false
  | some rest =>
    let ds := rest.takeWhile Char.isDigit
    let tail := rest.drop ds.length
    !ds.isEmpty &&
      (tail == [] || tail == ['/'] || tail == ['\n'] || tail == ['/', '\n'])

/-- The detail-path shape exactly as claim C8 words it: a path of the
form /home/details/ digits with an optional trailing slash and nothing
further. -/
def detailPathShape (s : String) : Bool :=
  match matchLit "/home/details/".toList s.toList with
  | none => false
  | some rest =>
    let ds := rest.takeWhile Char.isDigit
    !ds.isEmpty && (rest.drop ds.length == [] || rest.drop ds.length == ['/'])

/-- Model of urllib.parse.urljoin for the href shapes this program
resolves: the parser first removes every tab, carriage return and
newline from the URL (the unsafe-byte stripping of urlsplit), then
already-absolute URLs pass through, root-relative paths attach to the
base (whose own path is empty, so the base is its origin), and anything
else attaches below the base. -/
def urljoin (base href : String) : String :=
  let href := String.mk
    (href.toList.filter (fun c => !(c == '\t' || c == '\r' || c == '\n')))
  if startsWithStr "http://" href || startsWithStr "https://" href then href
  else if startsWithStr "/" href then base ++ href
  else base ++ "/" ++ href

/-- Translation of extract_detail_links over the sequence of anchor
hrefs of the page, in document order: keep pattern matches, resolve
against the base, deduplicate via list(set(...)). -/
def extract_detail_links (hrefs : List String) : List String :=
  setList ((hrefs.filter detailHrefMatch).map (fun href => urljoin BASE_URL href))

/-! ## The detail-page document model and parser
(DoisPorUmDetailParser, scraper.py lines 190-414) -/

/-- One img element: its srcset and src attributes when present. -/
structure ImgTag where
  srcset : Option String := none
  src : Option String := none
deriving DecidableEq, Repr

/-- A parsed detail page, abstracting the BeautifulSoup document: the
texts (get_text, stripped) of the elements each extraction selector
scans, in document order, the anchor hrefs, the img tags and the raw
page source. -/
structure Doc where
  pliDivTexts : List String := []
  spanHeadTexts : List String := []
  h1Texts : List String := []
  h2Texts : List String := []
  dataTestidTitleTexts : List String := []
  classTitleTexts : List String := []
  titleTagTexts : List String := []
  anchorHrefs : List String := []
  imgTags : List ImgTag := []
  rawHtml : String := ""
deriving Repr

/-- Translation of _extract_text_blocks before its final list(set(...)):
p/li/div texts then span/h3-h6 texts, keeping the nonempty ones longer
than 10 characters, whitespace-normalized, in document order. -/
def textBlocksRaw (d : Doc) : List String :=
  ((d.pliDivTexts ++ d.spanHeadTexts).filter
      (fun t => !(t.length == 0) && decide (10 < t.length))).map normalizeWs

/-- Translation of _extract_title: the first selector in the priority
list h1, h2, data-testid title, class title, title whose element exists
wins, returning its text. -/
def extract_title (d : Doc) : String :=
  (d.h1Texts.head? <|> d.h2Texts.head? <|> d.dataTestidTitleTexts.head?
    <|> d.classTitleTexts.head? <|> d.titleTagTexts.head?).getD ""

/-- Leftmost occurrence of /details/ followed by at least one digit in
the URL, returning the digit run: re.search applied to the pattern
/details/ capture digits+ (scraper.py line 198). -/
def extractIdAux : List Char → Option String
  | [] => none
  | c :: cs =>
    match matchLit "/details/".toList (c :: cs) with
    | some rest =>
      let ds := rest.takeWhile Char.isDigit
      if ds.isEmpty then extractIdAux cs else some (String.mk ds)
    | none => extractIdAux cs

/-- Translation of the id extraction of parse. -/
def extractId (url : String) : Option String := extractIdAux url.toList

/-- Translation of _extract_website over the anchor hrefs: the first
absolute href not containing the source domain anywhere. -/
def websitePred (href : String) : Bool :=
  (startsWithStr "http://" href || startsWithStr "https://" href)
    && !containsSub "doisporum.net" href

/-- Translation of _extract_website (scraper.py lines 385-391). -/
def extract_website (anchors : List String) : String :=
  match anchors.find? websitePred with
  | some href => href
  | none => ""

/-- Python str.split(",") on the character list. -/
def splitOnComma : List Char → List (List Char)
  | [] => [[]]
  | c :: cs =>
    let r := splitOnComma cs
    if c == ',' then [] :: r
    else
      match r with
      | h :: t => (c :: h) :: t
      | [] => [[c]]

/-- The expression part.strip().split()[0] of the srcset parsing: the
first whitespace-delimited token of the stripped part, none when the
part is blank (where Python would raise IndexError inside the
comprehension; no claim depends on that input). -/
def firstTokenL (part : List Char) : Option (List Char) :=
  match trimWs part with
  | [] => none
  | c :: cs => some ((c :: cs).takeWhile (fun ch => !ch.isWhitespace))

/-- The falsy-guarded src attribute: the src branch of _extract_images. -/
def srcFallback (img : ImgTag) : Option String :=
  match img.src with
  | some u => if u.length == 0 then none else some u
  | none => none

/-- Translation of _extract_images before its set: for each img, the
last srcset candidate URL when a non-falsy srcset exists, else the
non-falsy src, resolved against the base; in document order, duplicates
retained (the Python code inserts them into a set). -/
def imageUrlsRaw (d : Doc) : List String :=
  d.imgTags.filterMap (fun img =>
    match img.srcset with
    | some s =>
      if s.length == 0 then
        (srcFallback img).map (fun u => urljoin BASE_URL u)
      else
        match ((splitOnComma s.toList).filterMap firstTokenL).getLast? with
        | some u => some (urljoin BASE_URL (String.mk u))
        | none => none
    | none => (srcFallback img).map (fun u => urljoin BASE_URL u))

/-- A legitimate enumeration of a Python set built from a list: its
elements exactly, each once, in an order the language does not specify. -/
def ValidEnum (e : List String → List String) : Prop :=
  ∀ l, (e l).Nodup ∧ ∀ x, x ∈ e l ↔ x ∈ l

/-- Translation of DoisPorUmDetailParser.parse (scraper.py lines
193-216), parameterized by the set-enumeration order the Python runtime
chooses for list(set(...)). -/
def parse (enum : List String → List String) (d : Doc) (url : String) : OfferItem :=
  let blocks := enum (textBlocksRaw d)
  { id := extractId url
    url := url
    title := extract_title d
    offer := extract_offer blocks
    description := extract_description blocks
    address := extract_address blocks
    phone := extract_phone blocks d.rawHtml
    website := extract_website d.anchorHrefs
    images := enum (imageUrlsRaw d) }

/-! ## Facts about the Python min and max by length -/

theorem pyMinByLen_cons (x y : String) (ys : List String) :
    pyMinByLen x (y :: ys) = pyMinByLen (if y.length < x.length then y else x) ys := rfl

theorem pyMinByLen_mem : ∀ (xs : List String) (x : String), pyMinByLen x xs ∈ x :: xs
  | [], x => by simp [pyMinByLen]
  | y :: ys, x => by
    rw [pyMinByLen_cons]
    have h := pyMinByLen_mem ys (if y.length < x.length then y else x)
    rcases List.mem_cons.1 h with h | h
    · rw [h]
      by_cases hc : y.length < x.length <;> simp [hc]
    · exact List.mem_cons_of_mem _ (List.mem_cons_of_mem _ h)

theorem pyMinByLen_le : ∀ (xs : List String) (x b : String), b ∈ x :: xs →
    (pyMinByLen x xs).length ≤ b.length
  | [], x, b, hb => by
    rcases List.mem_cons.1 hb with h | h
    · rw [h]; exact Nat.le_refl _
    · cases h
  | y :: ys, x, b, hb => by
    rw [pyMinByLen_cons]
    have hzx : (if y.length < x.length then y else x).length ≤ x.length := by
      by_cases hc : y.length < x.length <;> simp [hc] <;> omega
    have hzy : (if y.length < x.length then y else x).length ≤ y.length := by
      by_cases hc : y.length < x.length <;> simp [hc] <;> omega
    have hhead := pyMinByLen_le ys (if y.length < x.length then y else x) _
      (List.mem_cons_self _ _)
    rcases List.mem_cons.1 hb with h | h
    · rw [h]; exact Nat.le_trans hhead hzx
    · rcases List.mem_cons.1 h with h2 | h2
      · rw [h2]; exact Nat.le_trans hhead hzy
      · exact pyMinByLen_le ys _ b (List.mem_cons_of_mem _ h2)

theorem pyMaxByLen_cons (x y : String) (ys : List String) :
    pyMaxByLen x (y :: ys) = pyMaxByLen (if x.length < y.length then y else x) ys := rfl

theorem pyMaxByLen_mem : ∀ (xs : List String) (x : String), pyMaxByLen x xs ∈ x :: xs
  | [], x => by simp [pyMaxByLen]
  | y :: ys, x => by
    rw [pyMaxByLen_cons]
    have h := pyMaxByLen_mem ys (if x.length < y.length then y else x)
    rcases List.mem_cons.1 h with h | h
    · rw [h]
      by_cases hc : x.length < y.length <;> simp [hc]
    · exact List.mem_cons_of_mem _ (List.mem_cons_of_mem _ h)

theorem pyMaxByLen_ge : ∀ (xs : List String) (x b : String), b ∈ x :: xs →
    b.length ≤ (pyMaxByLen x xs).length
  | [], x, b, hb => by
    rcases List.mem_cons.1 hb with h | h
    · rw [h]; exact Nat.le_refl _
    · cases h
  | y :: ys, x, b, hb => by
    rw [pyMaxByLen_cons]
    have hzx : x.length ≤ (if x.length < y.length then y else x).length := by
      by_cases hc : x.length < y.length <;> simp [hc] <;> omega
    have hzy : y.length ≤ (if x.length < y.length then y else x).length := by
      by_cases hc : x.length < y.length <;> simp [hc] <;> omega
    have hhead := pyMaxByLen_ge ys (if x.length < y.length then y else x) _
      (List.mem_cons_self _ _)
    rcases List.mem_cons.1 hb with h | h
    · rw [h]; exact Nat.le_trans hzx hhead
    · rcases List.mem_cons.1 h with h2 | h2
      · rw [h2]; exact Nat.le_trans hzy hhead
      · exact pyMaxByLen_ge ys _ b (List.mem_cons_of_mem _ h2)

/-- A block matching the anchored oferta pattern matches OFFER_KEYWORDS,
whose first alternative it is. -/
theorem startsOferta_keywords {b : String} (h : startsOferta b = true) :
    offerKeywordsB b = true := by
  simp [offerKeywordsB, h]

/-- C3: for every set of text blocks, the offer field is the shortest
block among those matching the anchored oferta pattern when one exists;
otherwise the shortest block among those matching the promotional-keyword
pattern when one exists; otherwise the empty string.  The first two parts
also give that the result is itself a matching member of the input, so a
non-qualifying block is never returned while a qualifying one exists. -/
theorem c3_offer_rule (blocks : List String) :
    ((∃ b ∈ blocks, startsOferta b = true) →
      extract_offer blocks ∈ blocks ∧ startsOferta (extract_offer blocks) = true ∧
        ∀ b ∈ blocks, startsOferta b = true →
          (extract_offer blocks).length ≤ b.length)
  ∧ ((∀ b ∈ blocks, startsOferta b = false) →
      (∃ b ∈ blocks, offerKeywordsB b = true) →
      extract_offer blocks ∈ blocks ∧ offerKeywordsB (extract_offer blocks) = true ∧
        ∀ b ∈ blocks, offerKeywordsB b = true →
          (extract_offer blocks).length ≤ b.length)
  ∧ ((∀ b ∈ blocks, offerKeywordsB b = false) → extract_offer blocks = "") := by
  refine ⟨?_, ?_, ?_⟩
  · rintro ⟨b, hb, hsb⟩
    have hbf : b ∈ blocks.filter (fun b => startsOferta b) :=
      List.mem_filter.2 ⟨hb, hsb⟩
    cases hfil : blocks.filter (fun b => startsOferta b) with
    | nil => rw [hfil] at hbf; cases hbf
    | cons c cs =>
      have he : extract_offer blocks = pyMinByLen c cs := by
        simp only [extract_offer, hfil]
      rw [he]
      have hmem := pyMinByLen_mem cs c
      rw [← hfil] at hmem
      have hmem2 := List.mem_filter.1 hmem
      refine ⟨hmem2.1, hmem2.2, ?_⟩
      intro b2 hb2 hs2
      have : b2 ∈ c :: cs := by
        rw [← hfil]; exact List.mem_filter.2 ⟨hb2, hs2⟩
      exact pyMinByLen_le cs c b2 this
  · rintro hnone ⟨b, hb, hkb⟩
    have hfil1 : blocks.filter (fun b => startsOferta b) = [] :=
      List.filter_eq_nil_iff.2 (fun a ha => by simp [hnone a ha])
    have hbf : b ∈ blocks.filter (fun b => offerKeywordsB b) :=
      List.mem_filter.2 ⟨hb, hkb⟩
    cases hfil : blocks.filter (fun b => offerKeywordsB b) with
    | nil => rw [hfil] at hbf; cases hbf
    | cons c cs =>
      have he : extract_offer blocks = pyMinByLen c cs := by
        simp only [extract_offer, hfil1, hfil]
      rw [he]
      have hmem := pyMinByLen_mem cs c
      rw [← hfil] at hmem
      have hmem2 := List.mem_filter.1 hmem
      refine ⟨hmem2.1, hmem2.2, ?_⟩
      intro b2 hb2 hs2
      have : b2 ∈ c :: cs := by
        rw [← hfil]; exact List.mem_filter.2 ⟨hb2, hs2⟩
      exact pyMinByLen_le cs c b2 this
  · intro hnone
    have hfil1 : blocks.filter (fun b => startsOferta b) = [] :=
      List.filter_eq_nil_iff.2 (fun a ha => by
        have hk := hnone a ha
        by_cases hs : startsOferta a = true
        · exact absurd (startsOferta_keywords hs) (by simp [hk])
        · simpa using hs)
    have hfil2 : blocks.filter (fun b => offerKeywordsB b) = [] :=
      List.filter_eq_nil_iff.2 (fun a ha => by simp [hnone a ha])
    simp only [extract_offer, hfil1, hfil2]

/-- Input of the C3 witness: the two blocks of the specification's offer
scenario. -/
def offerBlocksW : List String :=
  ["Oferta: 2x1 em pizzas",
   "Oferta imperdivel: compre uma pizza grande e ganhe outra pizza grande"]

theorem c3_offer_rule_witness :
    extract_offer offerBlocksW ∈ offerBlocksW ∧
    startsOferta (extract_offer offerBlocksW) = true ∧
    ∀ b ∈ offerBlocksW, startsOferta b = true →
      (extract_offer offerBlocksW).length ≤ b.length :=
  (c3_offer_rule offerBlocksW).1 ⟨"Oferta: 2x1 em pizzas", by decide, by decide⟩

/-- C5: for every set of text blocks, the description field is the
longest block among those longer than 120 characters matching neither
offer predicate when one exists; otherwise the longest among all blocks
matching neither predicate; otherwise the empty string. -/
theorem c5_description_rule (blocks : List String) :
    ((∃ b ∈ blocks, 120 < b.length ∧ startsOferta b = false ∧ offerKeywordsB b = false) →
      extract_description blocks ∈ blocks ∧
        120 < (extract_description blocks).length ∧
        startsOferta (extract_description blocks) = false ∧
        offerKeywordsB (extract_description blocks) = false ∧
        ∀ b ∈ blocks, 120 < b.length → startsOferta b = false →
          offerKeywordsB b = false →
          b.length ≤ (extract_description blocks).length)
  ∧ ((∀ b ∈ blocks, 120 < b.length → startsOferta b = true ∨ offerKeywordsB b = true) →
      (∃ b ∈ blocks, startsOferta b = false ∧ offerKeywordsB b = false) →
      extract_description blocks ∈ blocks ∧
        startsOferta (extract_description blocks) = false ∧
        offerKeywordsB (extract_description blocks) = false ∧
        ∀ b ∈ blocks, startsOferta b = false → offerKeywordsB b = false →
          b.length ≤ (extract_description blocks).length)
  ∧ ((∀ b ∈ blocks, startsOferta b = true ∨ offerKeywordsB b = true) →
      extract_description blocks = "") := by
  refine ⟨?_, ?_, ?_⟩
  · rintro ⟨b, hb, hlen, hs, hk⟩
    have hbf : b ∈ blocks.filter
        (fun b => decide (120 < b.length) && !startsOferta b && !offerKeywordsB b) :=
      List.mem_filter.2 ⟨hb, by simp [hlen, hs, hk]⟩
    cases hfil : blocks.filter
        (fun b => decide (120 < b.length) && !startsOferta b && !offerKeywordsB b) with
    | nil => rw [hfil] at hbf; cases hbf
    | cons c cs =>
      have he : extract_description blocks = pyMaxByLen c cs := by
        simp only [extract_description, hfil]
      rw [he]
      have hmem := pyMaxByLen_mem cs c
      rw [← hfil] at hmem
      have hmem2 := List.mem_filter.1 hmem
      have hprops := hmem2.2
      simp only [Bool.and_eq_true, Bool.not_eq_true', decide_eq_true_eq] at hprops
      refine ⟨hmem2.1, hprops.1.1, hprops.1.2, hprops.2, ?_⟩
      intro b2 hb2 hl2 hs2 hk2
      have : b2 ∈ c :: cs := by
        rw [← hfil]; exact List.mem_filter.2 ⟨hb2, by simp [hl2, hs2, hk2]⟩
      exact pyMaxByLen_ge cs c b2 this
  · rintro hcov ⟨b, hb, hs, hk⟩
    have hfil1 : blocks.filter
        (fun b => decide (120 < b.length) && !startsOferta b && !offerKeywordsB b) = [] := by
      refine List.filter_eq_nil_iff.2 (fun a ha => ?_)
      by_cases hl : 120 < a.length
      · rcases hcov a ha hl with h | h <;> simp [h]
      · simp [hl]
    have hbf : b ∈ blocks.filter (fun b => !startsOferta b && !offerKeywordsB b) :=
      List.mem_filter.2 ⟨hb, by simp [hs, hk]⟩
    cases hfil : blocks.filter (fun b => !startsOferta b && !offerKeywordsB b) with
    | nil => rw [hfil] at hbf; cases hbf
    | cons c cs =>
      have he : extract_description blocks = pyMaxByLen c cs := by
        simp only [extract_description, hfil1, hfil]
      rw [he]
      have hmem := pyMaxByLen_mem cs c
      rw [← hfil] at hmem
      have hmem2 := List.mem_filter.1 hmem
      have hprops := hmem2.2
      simp only [Bool.and_eq_true, Bool.not_eq_true'] at hprops
      refine ⟨hmem2.1, hprops.1, hprops.2, ?_⟩
      intro b2 hb2 hs2 hk2
      have : b2 ∈ c :: cs := by
        rw [← hfil]; exact List.mem_filter.2 ⟨hb2, by simp [hs2, hk2]⟩
      exact pyMaxByLen_ge cs c b2 this
  · intro hall
    have hfil1 : blocks.filter
        (fun b => decide (120 < b.length) && !startsOferta b && !offerKeywordsB b) = [] := by
      refine List.filter_eq_nil_iff.2 (fun a ha => ?_)
      rcases hall a ha with h | h <;> simp [h]
    have hfil2 : blocks.filter (fun b => !startsOferta b && !offerKeywordsB b) = [] := by
      refine List.filter_eq_nil_iff.2 (fun a ha => ?_)
      rcases hall a ha with h | h <;> simp [h]
    simp only [extract_description, hfil1, hfil2]

/-- Input of the C5 witness: one long clean block among offer noise. -/
def descBlocksW : List String :=
  ["Oferta: 2x1 em pizzas",
   String.mk (List.replicate 121 'x'),
   "um bloco curto"]

theorem c5_description_rule_witness :
    extract_description descBlocksW ∈ descBlocksW ∧
    120 < (extract_description descBlocksW).length ∧
    startsOferta (extract_description descBlocksW) = false ∧
    offerKeywordsB (extract_description descBlocksW) = false ∧
    ∀ b ∈ descBlocksW, 120 < b.length → startsOferta b = false →
      offerKeywordsB b = false →
      b.length ≤ (extract_description descBlocksW).length :=
  (c5_description_rule descBlocksW).1
    ⟨String.mk (List.replicate 121 'x'), by decide, by decide, by decide, by decide⟩

/-! ## Stability of the coordinator sort on the infinity key class -/

/-- Every key is below the infinity key. -/
theorem keyLe_none_right (x : Option Int) : keyLe x none = true := by
  cases x <;> rfl

/-- Nothing except infinity is above the infinity key. -/
theorem keyLe_none_left {y : Option Int} (h : keyLe none y = true) : y = none := by
  cases y with
  | none => rfl
  | some v => simp [keyLe] at h

/-- Inserting a record into a list moves it past exactly the records with
a strictly smaller key, so the infinity-keyed sublist gains the record at
its front when the record is infinity-keyed and is unchanged otherwise. -/
theorem filter_none_orderedInsert (x : OfferItem) (l : List OfferItem) :
    (l.orderedInsert offerLe x).filter (fun o => (sort_key o).isNone) =
      if (sort_key x).isNone then
        x :: l.filter (fun o => (sort_key o).isNone)
      else l.filter (fun o => (sort_key o).isNone) := by
  induction l with
  | nil =>
    by_cases hx : (sort_key x).isNone <;>
      simp [List.orderedInsert, List.filter, hx]
  | cons y ys ih =>
    by_cases hxy : offerLe x y
    · rw [List.orderedInsert, if_pos hxy]
      by_cases hx : (sort_key x).isNone <;> simp [List.filter_cons, hx]
    · rw [List.orderedInsert, if_neg hxy]
      by_cases hx : (sort_key x).isNone
      · have hy : (sort_key y).isNone = false := by
          cases hsy : sort_key y with
          | none => exact absurd (by unfold offerLe; rw [hsy]; exact keyLe_none_right _) hxy
          | some v => rfl
        simp [List.filter_cons, hy, ih, hx]
      · by_cases hy : (sort_key y).isNone <;>
          simp [List.filter_cons, hy, ih, hx]

/-- The stable sort preserves the relative order of the records whose key
is infinity: their sublist is exactly their sublist in the input. -/
theorem filter_none_insertionSort (l : List OfferItem) :
    (List.insertionSort offerLe l).filter (fun o => (sort_key o).isNone) =
      l.filter (fun o => (sort_key o).isNone) := by
  induction l with
  | nil => rfl
  | cons a t ih =>
    rw [List.insertionSort, filter_none_orderedInsert, ih]
    by_cases ha : (sort_key a).isNone <;> simp [List.filter_cons, ha]

/-- C2: the coordinator's final output is pairwise ordered by the mapped
key (so a record with a smaller parsed id precedes every record with a
larger one, and every record whose id is absent or unparseable, key
infinity, comes after all records with parsed ids), it is a permutation
of the input, and the sublist of records with unparseable ids is their
input sublist (the sort is stable on the mapped key). -/
theorem c2_coordinator_sort (l : List OfferItem) :
    (coordinatorSort l).Pairwise offerLe
  ∧ (coordinatorSort l).Perm l
  ∧ (coordinatorSort l).filter (fun o => (sort_key o).isNone) =
      l.filter (fun o => (sort_key o).isNone) :=
  ⟨List.sorted_insertionSort offerLe l, List.perm_insertionSort offerLe l,
    filter_none_insertionSort l⟩

/-- C7: when the collector yields no URLs or the harvester yields no
records, the run returns the empty outcome without invoking either save
operation; and whenever a save operation is invoked, its argument is a
nonempty record list. -/
theorem c7_coordinator_early_return (collect_result : List String)
    (scrape : List String → List OfferItem) :
    ((collect_result = [] ∨ scrape collect_result = []) →
      coordinatorRun collect_result scrape = ⟨none, none⟩)
  ∧ (∀ recs, (coordinatorRun collect_result scrape).save_csv_arg = some recs ∨
      (coordinatorRun collect_result scrape).save_jsonl_arg = some recs →
      recs ≠ []) := by
  constructor
  · rintro (h | h)
    · simp [coordinatorRun, h]
    · cases hc : collect_result with
      | nil => simp [coordinatorRun]
      | cons u us =>
        rw [hc] at h
        simp [coordinatorRun, hc, h]
  · intro recs hr
    cases hc : collect_result with
    | nil => rw [hc] at hr; simp [coordinatorRun] at hr
    | cons u us =>
      rw [hc] at hr
      cases hs : scrape (u :: us) with
      | nil => simp [coordinatorRun, hs] at hr
      | cons o os =>
        have hrec : recs = coordinatorSort (o :: os) := by
          rcases hr with h | h <;>
            · simp [coordinatorRun, hs] at h
              exact h.symm
        rw [hrec]
        intro hnil
        have := List.length_insertionSort offerLe (o :: os)
        rw [show coordinatorSort (o :: os) = List.insertionSort offerLe (o :: os) from rfl]
          at hnil
        rw [hnil] at this
        simp at this

theorem c7_coordinator_early_return_witness :
    coordinatorRun [] (fun _ => [({ id := some "1" } : OfferItem)]) =
      ⟨none, none⟩ ∧
    coordinatorRun ["u"] (fun _ => ([] : List OfferItem)) = ⟨none, none⟩ :=
  ⟨(c7_coordinator_early_return [] _).1 (Or.inl rfl),
   (c7_coordinator_early_return ["u"] _).1 (Or.inr rfl)⟩

/-- C6: a call of get_text tries at most 3 attempts; when every attempt
fails it returns none, a value rather than an exception, after sleeping
1 second then 2 seconds between attempts and not after the last; when
attempt k is the first success it returns that attempt's text at once,
having tried exactly the attempts up to k with the sleeps 1, ..., k. -/
theorem c6_fetcher_retry (f : Nat → Option String) :
    (get_text f).2.2.length ≤ 3
  ∧ ((f 0 = none ∧ f 1 = none ∧ f 2 = none) →
      get_text f = (none, [1, 2], [0, 1, 2]))
  ∧ (∀ h, f 0 = some h → get_text f = (some h, [], [0]))
  ∧ (∀ h, f 0 = none → f 1 = some h → get_text f = (some h, [1], [0, 1]))
  ∧ (∀ h, f 0 = none → f 1 = none → f 2 = some h →
      get_text f = (some h, [1, 2], [0, 1, 2])) := by
  have hr : List.range 3 = [0, 1, 2] := rfl
  cases hf0 : f 0 <;> cases hf1 : f 1 <;> cases hf2 : f 2 <;>
    simp_all [get_text, hr, getTextFrom]

theorem c6_fetcher_retry_witness :
    get_text (fun n => if n == 1 then some "ok" else none) =
      (some "ok", [1], [0, 1]) :=
  (c6_fetcher_retry (fun n => if n == 1 then some "ok" else none)).2.2.2.1
    "ok" rfl rfl

/-! ## Frontier collector invariants -/

/-- Adding links with the cap check before each insertion never pushes
the set beyond the cap. -/
theorem addLinksUpTo_card_le (m : Nat) :
    ∀ (ls : List String) (c : Finset String), c.card ≤ m →
      (addLinksUpTo m c ls).card ≤ m
  | [], _, h => h
  | link :: rest, c, h => by
    rw [addLinksUpTo]
    by_cases hm : m ≤ c.card
    · simpa [hm] using h
    · have hins : (insert link c).card ≤ m := by
        have := Finset.card_insert_le link c
        omega
      simpa [hm] using addLinksUpTo_card_le m rest (insert link c) hins

/-- One step never pushes the collected set beyond the cap. -/
theorem collectStep_card_le (w : String → Option String)
    (eD eP : String → List String) (m : Nat) (s : FrontierState)
    (h : s.collected_links.card ≤ m) :
    (collectStep w eD eP m s).collected_links.card ≤ m := by
  unfold collectStep
  cases s.pages_to_visit with
  | nil => exact h
  | cons cur rest =>
    by_cases hv : cur ∈ s.visited_pages
    · simpa [hv] using h
    · simp only [hv, if_false]
      cases w cur with
      | none => exact h
      | some html =>
        by_cases hh : html.length == 0
        · simpa [hh] using h
        · simp only [hh]
          by_cases hq : (addLinksUpTo m s.collected_links (eD html)).card < m <;>
            simpa [hq] using addLinksUpTo_card_le m (eD html) _ h

/-- One step only ever grows the visited set. -/
theorem collectStep_visited_subset (w : String → Option String)
    (eD eP : String → List String) (m : Nat) (s : FrontierState) :
    s.visited_pages ⊆ (collectStep w eD eP m s).visited_pages := by
  unfold collectStep
  cases s.pages_to_visit with
  | nil => exact Finset.Subset.refl _
  | cons cur rest =>
    by_cases hv : cur ∈ s.visited_pages
    · simp [hv]
    · simp only [hv, if_false]
      cases w cur with
      | none => exact Finset.subset_insert _ _
      | some html =>
        by_cases hh : html.length == 0
        · simpa [hh] using Finset.subset_insert cur s.visited_pages
        · simp only [hh]
          by_cases hq : (addLinksUpTo m s.collected_links (eD html)).card < m <;>
            simpa [hq] using Finset.subset_insert cur s.visited_pages

/-- The invariant tying the fetch log to the visited set: no URL was
fetched twice, and every fetched URL is marked visited. -/
def FetchInv (s : FrontierState) : Prop :=
  s.fetched.Nodup ∧ ∀ u ∈ s.fetched, u ∈ s.visited_pages

/-- One step preserves the fetch-log invariant: a URL is only fetched
when it is not yet visited, and it becomes visited in the same step. -/
theorem collectStep_fetchInv (w : String → Option String)
    (eD eP : String → List String) (m : Nat) (s : FrontierState)
    (h : FetchInv s) : FetchInv (collectStep w eD eP m s) := by
  obtain ⟨hnd, hsub⟩ := h
  have hext : ∀ (cur : String), cur ∉ s.visited_pages →
      (s.fetched ++ [cur]).Nodup ∧
      ∀ u ∈ s.fetched ++ [cur], u ∈ insert cur s.visited_pages := by
    intro cur hv
    constructor
    · have hcur : cur ∉ s.fetched := fun hmem => hv (hsub cur hmem)
      simp [List.nodup_append, hnd, hcur]
    · intro u hu
      rcases List.mem_append.1 hu with hu | hu
      · exact Finset.mem_insert_of_mem (hsub u hu)
      · simp at hu
        rw [hu]
        exact Finset.mem_insert_self _ _
  unfold collectStep
  cases s.pages_to_visit with
  | nil => exact ⟨hnd, hsub⟩
  | cons cur rest =>
    dsimp only
    by_cases hv : cur ∈ s.visited_pages
    · rw [if_pos hv]
      exact ⟨hnd, hsub⟩
    · rw [if_neg hv]
      cases w cur with
      | none => exact hext cur hv
      | some html =>
        dsimp only
        by_cases hh : (html.length == 0) = true
        · rw [if_pos hh]
          exact hext cur hv
        · rw [if_neg hh]
          by_cases hq : (addLinksUpTo m s.collected_links (eD html)).card < m
          · rw [if_pos hq]
            exact hext cur hv
          · rw [if_neg hq]
            exact hext cur hv

/-- The loop preserves the cap bound. -/
theorem collectRun_card_le (w : String → Option String)
    (eD eP : String → List String) (m : Nat) :
    ∀ (fuel : Nat) (s : FrontierState), s.collected_links.card ≤ m →
      (collectRun w eD eP m fuel s).collected_links.card ≤ m
  | 0, _, h => h
  | fuel + 1, s, h => by
    rw [collectRun]
    by_cases hc : ¬s.pages_to_visit.isEmpty = true ∧ s.collected_links.card < m
    · rw [if_pos hc]
      exact collectRun_card_le w eD eP m fuel _ (collectStep_card_le w eD eP m s h)
    · rw [if_neg hc]
      exact h

/-- The loop preserves the fetch-log invariant. -/
theorem collectRun_fetchInv (w : String → Option String)
    (eD eP : String → List String) (m : Nat) :
    ∀ (fuel : Nat) (s : FrontierState), FetchInv s →
      FetchInv (collectRun w eD eP m fuel s)
  | 0, _, h => h
  | fuel + 1, s, h => by
    rw [collectRun]
    by_cases hc : ¬s.pages_to_visit.isEmpty = true ∧ s.collected_links.card < m
    · rw [if_pos hc]
      exact collectRun_fetchInv w eD eP m fuel _ (collectStep_fetchInv w eD eP m s h)
    · rw [if_neg hc]
      exact h

/-- Running the loop one step longer from the same state only grows the
visited set. -/
theorem collectRun_visited_mono (w : String → Option String)
    (eD eP : String → List String) (m : Nat) :
    ∀ (fuel : Nat) (s : FrontierState),
      (collectRun w eD eP m fuel s).visited_pages ⊆
        (collectRun w eD eP m (fuel + 1) s).visited_pages
  | 0, s => by
    rw [collectRun, collectRun]
    by_cases hc : ¬s.pages_to_visit.isEmpty = true ∧ s.collected_links.card < m
    · rw [if_pos hc]
      exact collectStep_visited_subset w eD eP m s
    · rw [if_neg hc]
  | fuel + 1, s => by
    rw [collectRun, show collectRun w eD eP m (fuel + 1 + 1) s =
      if ¬s.pages_to_visit.isEmpty = true ∧ s.collected_links.card < m then
        collectRun w eD eP m (fuel + 1) (collectStep w eD eP m s)
      else s from rfl]
    by_cases hc : ¬s.pages_to_visit.isEmpty = true ∧ s.collected_links.card < m
    · rw [if_pos hc, if_pos hc]
      exact collectRun_visited_mono w eD eP m fuel (collectStep w eD eP m s)
    · rw [if_neg hc, if_neg hc]

/-- C1: for every seed URL and cap, after any number of loop steps the
discovered set has at most max_items elements, no page URL was ever
fetched twice (every fetched URL is in the visited set, and the fetch
log has no duplicates, so a URL already visited is skipped when dequeued
again), and the visited set only grows from each step to the next. -/
theorem c1_frontier_invariants (world : String → Option String)
    (extractDetails extractPagination : String → List String)
    (seed_url : String) (max_items fuel : Nat) :
    (collectRun world extractDetails extractPagination max_items fuel
        (initFrontier seed_url)).collected_links.card ≤ max_items
  ∧ (collectRun world extractDetails extractPagination max_items fuel
        (initFrontier seed_url)).fetched.Nodup
  ∧ (∀ u ∈ (collectRun world extractDetails extractPagination max_items fuel
        (initFrontier seed_url)).fetched,
      u ∈ (collectRun world extractDetails extractPagination max_items fuel
        (initFrontier seed_url)).visited_pages)
  ∧ (collectRun world extractDetails extractPagination max_items fuel
        (initFrontier seed_url)).visited_pages ⊆
      (collectRun world extractDetails extractPagination max_items (fuel + 1)
        (initFrontier seed_url)).visited_pages := by
  have hinit : FetchInv (initFrontier seed_url) := by
    constructor
    · exact List.nodup_nil
    · intro u hu
      cases hu
  have hinv := collectRun_fetchInv world extractDetails extractPagination max_items
    fuel (initFrontier seed_url) hinit
  refine ⟨?_, hinv.1, hinv.2, ?_⟩
  · exact collectRun_card_le world extractDetails extractPagination max_items fuel
      (initFrontier seed_url) (by simp [initFrontier])
  · exact collectRun_visited_mono world extractDetails extractPagination max_items
      fuel (initFrontier seed_url)

theorem c1_frontier_invariants_witness :
    (collectRun (fun _ => some "page") (fun _ => ["d1", "d2", "d3"]) (fun _ => ["p2"])
        2 10 (initFrontier "seed")).collected_links.card ≤ 2
  ∧ (collectRun (fun _ => some "page") (fun _ => ["d1", "d2", "d3"]) (fun _ => ["p2"])
        2 10 (initFrontier "seed")).fetched.Nodup
  ∧ (∀ u ∈ (collectRun (fun _ => some "page") (fun _ => ["d1", "d2", "d3"])
        (fun _ => ["p2"]) 2 10 (initFrontier "seed")).fetched,
      u ∈ (collectRun (fun _ => some "page") (fun _ => ["d1", "d2", "d3"])
        (fun _ => ["p2"]) 2 10 (initFrontier "seed")).visited_pages)
  ∧ (collectRun (fun _ => some "page") (fun _ => ["d1", "d2", "d3"]) (fun _ => ["p2"])
        2 10 (initFrontier "seed")).visited_pages ⊆
      (collectRun (fun _ => some "page") (fun _ => ["d1", "d2", "d3"]) (fun _ => ["p2"])
        2 11 (initFrontier "seed")).visited_pages :=
  c1_frontier_invariants (fun _ => some "page") (fun _ => ["d1", "d2", "d3"])
    (fun _ => ["p2"]) "seed" 2 10

/-! ## Membership and uniqueness of the set model -/

theorem mem_dedupKeyedAux_id : ∀ (seen l : List String) (x : String),
    x ∈ dedupKeyedAux id seen l ↔ x ∈ l ∧ x ∉ seen
  | seen, [], x => by simp [dedupKeyedAux]
  | seen, a :: rest, x => by
    simp only [dedupKeyedAux, id]
    by_cases hs : a ∈ seen
    · rw [if_pos hs, mem_dedupKeyedAux_id seen rest x]
      constructor
      · rintro ⟨hx, hns⟩
        exact ⟨List.mem_cons_of_mem _ hx, hns⟩
      · rintro ⟨hx, hns⟩
        rcases List.mem_cons.1 hx with rfl | hx
        · exact absurd hs hns
        · exact ⟨hx, hns⟩
    · rw [if_neg hs]
      simp only [List.mem_cons, mem_dedupKeyedAux_id (a :: seen) rest x]
      constructor
      · rintro (rfl | ⟨hx, hnx⟩)
        · exact ⟨Or.inl rfl, hs⟩
        · refine ⟨Or.inr hx, fun hmem => hnx (Or.inr hmem)⟩
      · rintro ⟨rfl | hx, hns⟩
        · exact Or.inl rfl
        · by_cases hxa : x = a
          · exact Or.inl hxa
          · refine Or.inr ⟨hx, fun hmem => ?_⟩
            rcases hmem with h | h
            · exact hxa h
            · exact hns h

theorem nodup_dedupKeyedAux_id : ∀ (seen l : List String),
    (dedupKeyedAux id seen l).Nodup
  | _, [] => List.nodup_nil
  | seen, a :: rest => by
    simp only [dedupKeyedAux, id]
    by_cases hs : a ∈ seen
    · rw [if_pos hs]
      exact nodup_dedupKeyedAux_id seen rest
    · rw [if_neg hs]
      refine List.nodup_cons.2 ⟨fun hmem => ?_, nodup_dedupKeyedAux_id (a :: seen) rest⟩
      exact ((mem_dedupKeyedAux_id _ _ _).1 hmem).2 (List.mem_cons_self _ _)

/-- The set model enumerates exactly the members of the list. -/
theorem setList_mem (l : List String) (x : String) : x ∈ setList l ↔ x ∈ l := by
  have h := mem_dedupKeyedAux_id [] l x
  simpa [setList, dedupKeyed] using h

/-- The set model enumerates without duplicates. -/
theorem setList_nodup (l : List String) : (setList l).Nodup :=
  nodup_dedupKeyedAux_id [] l

/-- C8 counterexample: the anchor href consisting of the detail path
followed by one final newline does not have the shape the claim states,
yet re.match accepts it through the dollar anchor and the program
returns a URL resolved from it, so on this page the returned URL is not
the resolution of any shape-matching anchor href of the input. -/
theorem c8_counterexample :
    extract_detail_links ["/home/details/5\n"] =
        ["https://doisporum.net/home/details/5"]
  ∧ detailPathShape "/home/details/5\n" = false
  ∧ ¬(∀ u ∈ extract_detail_links ["/home/details/5\n"],
        ∃ href ∈ (["/home/details/5\n"] : List String),
          detailPathShape href = true ∧ u = urljoin BASE_URL href) := by
  refine ⟨by decide, by decide, ?_⟩
  intro hall
  have := hall "https://doisporum.net/home/details/5" (by decide)
  obtain ⟨href, hmem, hshape, _⟩ := this
  rw [List.mem_singleton.1 hmem] at hshape
  exact absurd hshape (by decide)

/-- C8 (amended): the detail-link list never contains a duplicate URL,
and every returned URL is the resolution against the site base of some
anchor href of the page matching DETAIL_HREF_PATTERN as Python applies
it: the path /home/details/ digits with an optional trailing slash,
optionally followed by one final newline that the dollar anchor
accepts. -/
theorem c8_detail_links (hrefs : List String) :
    (extract_detail_links hrefs).Nodup
  ∧ ∀ u ∈ extract_detail_links hrefs, ∃ href ∈ hrefs,
      detailHrefMatch href = true ∧ u = urljoin BASE_URL href := by
  constructor
  · exact setList_nodup _
  · intro u hu
    have hm := (setList_mem _ _).1 hu
    obtain ⟨href, hh, hurl⟩ := List.mem_map.1 hm
    have hf := List.mem_filter.1 hh
    exact ⟨href, hf.1, hf.2, hurl.symm⟩

theorem c8_detail_links_witness :
    (extract_detail_links ["/home/details/5", "/x", "/home/details/5",
        "/home/details/77/", "/home/details/6\n"]).Nodup
  ∧ ∀ u ∈ extract_detail_links ["/home/details/5", "/x", "/home/details/5",
        "/home/details/77/", "/home/details/6\n"],
      ∃ href ∈ ["/home/details/5", "/x", "/home/details/5",
        "/home/details/77/", "/home/details/6\n"],
        detailHrefMatch href = true ∧ u = urljoin BASE_URL href :=
  c8_detail_links ["/home/details/5", "/x", "/home/details/5",
    "/home/details/77/", "/home/details/6\n"]

/-- C4: the implemented address extraction computes exactly the two-tier
policy stated by the specification: Tier 1 on postal-code blocks under
150 characters (one match verbatim, several deduplicated by stripped
label, sorted ascending by length, at most 5 joined), Tier 2 on
street-indicator blocks under 150 characters only when Tier 1 is empty
(deduplicated, sorted ascending, at most 3 joined), empty string when
neither tier matches. -/
theorem c4_address_two_tier (blocks : List String) :
    extract_address blocks = address_spec blocks := by
  unfold extract_address address_spec
  have hfe : blocks.filter (fun b => decide (b.length < 150) && cepSearch b) =
      blocks.filter (fun b => cepSearch b && decide (b.length < 150)) :=
    List.filter_congr (fun b _ => Bool.and_comm _ _)
  rw [hfe]
  have hfe2 : blocks.filter (fun b => decide (b.length < 150) && addressIndicator b) =
      blocks.filter (fun b => addressIndicator b && decide (b.length < 150)) :=
    List.filter_congr (fun b _ => Bool.and_comm _ _)
  rw [hfe2]
  cases hfil : blocks.filter (fun b => cepSearch b && decide (b.length < 150)) with
  | nil =>
    simp only [hfil, List.length_nil]
    cases hfil2 : blocks.filter (fun b => addressIndicator b && decide (b.length < 150)) with
    | nil => simp
    | cons c cs => simp
  | cons b bs =>
    cases bs with
    | nil => simp
    | cons b2 rest => simp [Nat.lt_of_sub_eq_succ]

/-! ## The lexicographic string order is a linear order -/

theorem lexLeB_total : ∀ (a b : List Char), lexLeB a b = true ∨ lexLeB b a = true
  | [], _ => Or.inl rfl
  | _ :: _, [] => Or.inr rfl
  | a :: as, b :: bs => by
    rcases lt_trichotomy a b with h | h | h
    · left
      simp [lexLeB, h]
    · subst h
      rcases lexLeB_total as bs with ih | ih
      · left
        simp [lexLeB, lt_irrefl, ih]
      · right
        simp [lexLeB, lt_irrefl, ih]
    · right
      simp [lexLeB, h]

theorem lexLeB_trans : ∀ {a b c : List Char}, lexLeB a b = true →
    lexLeB b c = true → lexLeB a c = true
  | [], _, _, _, _ => rfl
  | _ :: _, [], _, h1, _ => by simp [lexLeB] at h1
  | _ :: _, _ :: _, [], _, h2 => by simp [lexLeB] at h2
  | a :: as, b :: bs, c :: cs, h1, h2 => by
    rcases lt_trichotomy a b with hab | hab | hab
    · rcases lt_trichotomy b c with hbc | hbc | hbc
      · simp [lexLeB, lt_trans hab hbc]
      · subst hbc
        simp [lexLeB, hab]
      · exfalso
        simp [lexLeB, asymm hbc, hbc] at h2
    · subst hab
      rcases lt_trichotomy a c with hac | hac | hac
      · simp [lexLeB, hac]
      · subst hac
        simp only [lexLeB, lt_irrefl, if_false] at h1 h2 ⊢
        exact lexLeB_trans h1 h2
      · exfalso
        simp [lexLeB, asymm hac, hac] at h2
    · exfalso
      simp [lexLeB, asymm hab, hab] at h1

theorem lexLeB_antisymm : ∀ {a b : List Char}, lexLeB a b = true →
    lexLeB b a = true → a = b
  | [], [], _, _ => rfl
  | [], _ :: _, _, h2 => by simp [lexLeB] at h2
  | _ :: _, [], h1, _ => by simp [lexLeB] at h1
  | a :: as, b :: bs, h1, h2 => by
    rcases lt_trichotomy a b with hab | hab | hab
    · exfalso
      simp [lexLeB, asymm hab, hab] at h2
    · subst hab
      simp only [lexLeB, lt_irrefl, if_false] at h1 h2
      rw [lexLeB_antisymm h1 h2]
    · exfalso
      simp [lexLeB, asymm hab, hab] at h1

instance : IsTotal String strLe := ⟨fun s t => lexLeB_total s.toList t.toList⟩

instance : IsTrans String strLe := ⟨fun _ _ _ h1 h2 => lexLeB_trans h1 h2⟩

instance : IsAntisymm String strLe := by
  constructor
  intro s t h1 h2
  have hd := lexLeB_antisymm h1 h2
  cases s with
  | mk d1 =>
    cases t with
    | mk d2 => exact congrArg String.mk hd

/-- Two duplicate-free lists with the same members sort to the same
list: the sorted enumeration of a set is canonical. -/
theorem insertionSort_strLe_congr {l1 l2 : List String} (h1 : l1.Nodup)
    (h2 : l2.Nodup) (h : ∀ x, x ∈ l1 ↔ x ∈ l2) :
    List.insertionSort strLe l1 = List.insertionSort strLe l2 := by
  have hp : l1.Perm l2 := (List.perm_ext_iff_of_nodup h1 h2).2 h
  exact List.eq_of_perm_of_sorted
    ((List.perm_insertionSort strLe l1).trans
      (hp.trans (List.perm_insertionSort strLe l2).symm))
    (List.sorted_insertionSort strLe l1)
    (List.sorted_insertionSort strLe l2)

/-! ## The phone field depends only on the membership of the block set -/

theorem mem_phoneFmtList {l : List String} {x : String} :
    x ∈ phoneFmtList l ↔ ∃ b ∈ l, x ∈ (phoneFindAll b).map formatPhone := by
  simp [phoneFmtList]

/-- Two block lists with the same members give the same phone field: the
candidates are collected into a set and joined in sorted order, so
neither block order nor duplication matters. -/
theorem extract_phone_congr {l1 l2 : List String}
    (h : ∀ x, x ∈ l1 ↔ x ∈ l2) (html : String) :
    extract_phone l1 html = extract_phone l2 html := by
  unfold extract_phone
  have hmem : ∀ x,
      x ∈ setList (phoneFmtList (l1.filter (fun b => cepSearch b || addressIndicator b)))
      ↔ x ∈ setList (phoneFmtList (l2.filter (fun b => cepSearch b || addressIndicator b))) := by
    intro x
    rw [setList_mem, setList_mem, mem_phoneFmtList, mem_phoneFmtList]
    constructor
    · rintro ⟨b, hb, hx⟩
      have hf := List.mem_filter.1 hb
      exact ⟨b, List.mem_filter.2 ⟨(h b).1 hf.1, hf.2⟩, hx⟩
    · rintro ⟨b, hb, hx⟩
      have hf := List.mem_filter.1 hb
      exact ⟨b, List.mem_filter.2 ⟨(h b).2 hf.1, hf.2⟩, hx⟩
  have hp : (setList (phoneFmtList (l1.filter (fun b => cepSearch b || addressIndicator b)))).Perm
      (setList (phoneFmtList (l2.filter (fun b => cepSearch b || addressIndicator b)))) :=
    (List.perm_ext_iff_of_nodup (setList_nodup _) (setList_nodup _)).2 hmem
  by_cases he :
      (setList (phoneFmtList (l1.filter (fun b => cepSearch b || addressIndicator b)))).isEmpty = true
  · have he2 : (setList (phoneFmtList (l2.filter
        (fun b => cepSearch b || addressIndicator b)))).isEmpty = true := by
      rw [List.isEmpty_iff] at he ⊢
      have := hp.length_eq
      rw [he] at this
      exact List.length_eq_zero.1 this.symm
    rw [if_pos he, if_pos he2]
  · have he2 : ¬(setList (phoneFmtList (l2.filter
        (fun b => cepSearch b || addressIndicator b)))).isEmpty = true := by
      intro habs
      rw [List.isEmpty_iff] at habs
      rw [List.isEmpty_iff] at he
      have := hp.length_eq
      rw [habs] at this
      exact he (List.length_eq_zero.1 this)
    rw [if_neg he, if_neg he2,
      insertionSort_strLe_congr (setList_nodup _) (setList_nodup _) hmem]

/-- First-occurrence order is one legitimate set enumeration. -/
theorem validEnum_setList : ValidEnum setList :=
  fun l => ⟨setList_nodup l, fun x => setList_mem l x⟩

/-- Reversed first-occurrence order is another legitimate set
enumeration. -/
def enumRev (l : List String) : List String := (setList l).reverse

theorem validEnum_enumRev : ValidEnum enumRev := by
  intro l
  constructor
  · exact List.nodup_reverse.2 (setList_nodup l)
  · intro x
    rw [enumRev, List.mem_reverse]
    exact setList_mem l x

/-- C9 (amended): whatever enumeration orders the runtime picks for its
sets, re-running the parser on the identical document and URL yields the
same id, url, title, phone and website, and the same images when
compared as a set.  (The offer, description and address fields are
settled only once the enumeration order of the text-block set is fixed;
see the counterexample.) -/
theorem c9_parse_enum_independent (e1 e2 : List String → List String)
    (h1 : ValidEnum e1) (h2 : ValidEnum e2) (d : Doc) (url : String) :
    (parse e1 d url).id = (parse e2 d url).id
  ∧ (parse e1 d url).url = (parse e2 d url).url
  ∧ (parse e1 d url).title = (parse e2 d url).title
  ∧ (parse e1 d url).phone = (parse e2 d url).phone
  ∧ (parse e1 d url).website = (parse e2 d url).website
  ∧ (parse e1 d url).images.toFinset = (parse e2 d url).images.toFinset := by
  refine ⟨rfl, rfl, rfl, ?_, rfl, ?_⟩
  · show extract_phone (e1 (textBlocksRaw d)) d.rawHtml =
      extract_phone (e2 (textBlocksRaw d)) d.rawHtml
    apply extract_phone_congr
    intro x
    rw [(h1 (textBlocksRaw d)).2 x, (h2 (textBlocksRaw d)).2 x]
  · show (e1 (imageUrlsRaw d)).toFinset = (e2 (imageUrlsRaw d)).toFinset
    ext x
    rw [List.mem_toFinset, List.mem_toFinset,
      (h1 (imageUrlsRaw d)).2 x, (h2 (imageUrlsRaw d)).2 x]

/-- The document of the C9 witness and counterexample: two equal-length
offer blocks, two equal-length long description blocks, and two postal
code blocks whose stripped cores coincide. -/
def docW : Doc :=
  { pliDivTexts :=
      ["Oferta AAAAA", "Oferta BBBBB",
       String.mk (List.replicate 121 'x'), String.mk (List.replicate 121 'y'),
       "A:Rua Q, 11111-111", "B:Rua Q, 11111-111"] }

theorem c9_parse_enum_independent_witness :
    (parse setList docW "https://doisporum.net/home/details/9").id =
      (parse enumRev docW "https://doisporum.net/home/details/9").id
  ∧ (parse setList docW "https://doisporum.net/home/details/9").url =
      (parse enumRev docW "https://doisporum.net/home/details/9").url
  ∧ (parse setList docW "https://doisporum.net/home/details/9").title =
      (parse enumRev docW "https://doisporum.net/home/details/9").title
  ∧ (parse setList docW "https://doisporum.net/home/details/9").phone =
      (parse enumRev docW "https://doisporum.net/home/details/9").phone
  ∧ (parse setList docW "https://doisporum.net/home/details/9").website =
      (parse enumRev docW "https://doisporum.net/home/details/9").website
  ∧ (parse setList docW "https://doisporum.net/home/details/9").images.toFinset =
      (parse enumRev docW "https://doisporum.net/home/details/9").images.toFinset :=
  c9_parse_enum_independent setList enumRev validEnum_setList validEnum_enumRev
    docW "https://doisporum.net/home/details/9"

set_option maxRecDepth 8192 in
/-- C9 counterexample: on one concrete document, two legitimate runs of
the parser, differing only in the unspecified enumeration order of the
deduplicated text-block set, give different offer, description and
address fields, so those three fields are not determined by the inputs
alone and the claim as stated fails for them. -/
theorem c9_counterexample :
    ValidEnum setList ∧ ValidEnum enumRev
  ∧ (parse setList docW "u").offer ≠ (parse enumRev docW "u").offer
  ∧ (parse setList docW "u").description ≠ (parse enumRev docW "u").description
  ∧ (parse setList docW "u").address ≠ (parse enumRev docW "u").address :=
  ⟨validEnum_setList, validEnum_enumRev, by decide, by decide, by decide⟩

/-- The first-hit behaviour of a left-to-right scan: when position n
satisfies the predicate and every earlier position does not, find?
returns the element at n. -/
theorem find?_eq_get_of_first {p : String → Bool} : ∀ (l : List String) (n : Nat)
    (hn : n < l.length), p (l.get ⟨n, hn⟩) = true →
    (∀ m (hm : m < l.length), m < n → p (l.get ⟨m, hm⟩) = false) →
    l.find? p = some (l.get ⟨n, hn⟩)
  | [], n, hn, _, _ => absurd hn (by simp)
  | a :: l, 0, _, hp, _ => by
    have hp2 : p a = true := hp
    rw [List.find?_cons_of_pos _ hp2]
    rfl
  | a :: l, n + 1, hn, hp, hmin => by
    have ha : p a = false := hmin 0 (by simp) (by omega)
    rw [List.find?_cons_of_neg _ (by simp [ha])]
    exact find?_eq_get_of_first l n (by simpa using hn) (by simpa using hp)
      (fun m hm hmn => by simpa using hmin (m + 1) (by simpa using hm) (by omega))

/-- C10: the website field is the href of the first anchor, in document
order, whose href starts with an absolute scheme and does not contain
the substring doisporum.net anywhere; any href containing that substring
anywhere, for example inside a query parameter, is rejected outright;
the field is empty when no anchor qualifies. -/
theorem c10_website_rule (anchors : List String) :
    ((∀ a ∈ anchors, websitePred a = false) → extract_website anchors = "")
  ∧ (∀ n (hn : n < anchors.length), websitePred (anchors.get ⟨n, hn⟩) = true →
      (∀ m (hm : m < anchors.length), m < n →
        websitePred (anchors.get ⟨m, hm⟩) = false) →
      extract_website anchors = anchors.get ⟨n, hn⟩)
  ∧ (∀ href : String, containsSub "doisporum.net" href = true →
      websitePred href = false) := by
  refine ⟨?_, ?_, ?_⟩
  · intro hall
    have : anchors.find? websitePred = none :=
      List.find?_eq_none.2 (fun x hx => by simp [hall x hx])
    simp [extract_website, this]
  · intro n hn hp hmin
    have := find?_eq_get_of_first anchors n hn hp hmin
    simp [extract_website, this]
  · intro href h
    simp [websitePred, h]

theorem c10_website_rule_witness :
    extract_website ["/rel", "https://doisporum.net/x",
      "https://ex.com/a?u=doisporum.net", "https://other.com"] = "https://other.com"
  ∧ extract_website ["/rel"] = "" := by
  constructor
  · refine (c10_website_rule ["/rel", "https://doisporum.net/x",
      "https://ex.com/a?u=doisporum.net", "https://other.com"]).2.1 3 (by decide)
      (by decide) ?_
    intro m hm hlt
    interval_cases m
    · exact rfl
    · exact rfl
    · exact rfl
  · exact (c10_website_rule ["/rel"]).1 (by decide)
